import Mathlib

/-!
Verification of the bytecode virtual machine of the interpreter repository.

The embedding follows `src/vm/vm_impl.rs` (the `VirtualMachine::interpret`
loop and `is_falsey`).  The `chunk` module (the `Value` and `OpCode` types,
the `Chunk` container and `value_equal`) is not part of the sources given,
so those definitions are modelled from the specification (spec.md §3, §4.1,
§4.3).

Modelling conventions:
* Numbers (`f64` in the source) are modelled as exact rationals `Rat`; the
  properties verified here concern operand ordering, the zero-divisor guard
  and structural equality, none of which depend on rounding.
* The operand stack (`Vec<Value>` in the source, pushed/popped at the end)
  is a `List Value` whose head is the stack top; `Vec`-style indexing from
  the bottom is provided by `vecGet` / `vecSet`.
* Rust panics (out-of-bounds slice indexing, `usize` arithmetic underflow
  under the checked semantics the test build uses) are modelled by the
  distinct outcome `StepOut.panic`, separate from `InterpretResult`.
* The `HashMap<String, Value>` of globals is modelled as an association
  list with overwrite-on-insert semantics (`gget` / `ginsert`).
-/

/-- Modelled from the spec: `Value` is a tagged union over Number (64-bit
float, abstracted to `Rat`), Boolean, String and Null (spec.md §3).  It is
declared in the `chunk` module, which is absent from the sources. -/
inductive Value where
  | Number (n : Rat)
  | Boolean (b : Bool)
  | String (s : String)
  | Null
  deriving DecidableEq, Repr

/-- The constructor tag of a `Value`, used to state cross-variant facts. -/
def Value.variant : Value → Nat
  | .Number _ => 0
  | .Boolean _ => 1
  | .String _ => 2
  | .Null => 3

/-- Modelled from the spec: the closed instruction set (spec.md §3), declared
in the `chunk` module, which is absent from the sources. -/
inductive OpCode where
  | Constant (index : Nat)
  | True
  | False
  | Null
  | Not
  | Negate
  | Equal
  | NotEqual
  | Greater
  | GreaterEqual
  | Less
  | LessEqual
  | Add
  | Subtract
  | Multiply
  | Divide
  | Pop
  | DefineGlobal (index : Nat)
  | GetGlobal (index : Nat)
  | SetGlobal (index : Nat)
  | GetLocal (slot : Nat)
  | SetLocal (slot : Nat)
  | JumpIfFalse (offset : Nat)
  | Jump (offset : Nat)
  | Loop (offset : Nat)
  | Return
  deriving DecidableEq, Repr

/-- Modelled from the spec: a `Chunk` is an ordered sequence of instructions
plus an ordered constant pool (spec.md §3, §4.1); it is declared in the
`chunk` module, which is absent from the sources. -/
structure Chunk where
  code : List OpCode
  constants : List Value
  deriving DecidableEq, Repr

/-- Modelled from the spec: `get(position)` is a bounds-checked lookup
returning an absent result on out-of-range access (spec.md §4.1). -/
def Chunk.get (c : Chunk) (pos : Nat) : Option OpCode :=
  c.code.get? pos

/-- Modelled from the spec: `get_constant(index)` is a bounds-checked lookup
returning an absent result on out-of-range access (spec.md §4.1). -/
def Chunk.get_constant (c : Chunk) (index : Nat) : Option Value :=
  c.constants.get? index

/-- Modelled from the spec: `value_equal` is structural equality over any
pair of `Value` variants, always false across different variants (spec.md
§3, §4.3); it is declared in the `chunk` module, which is absent from the
sources. -/
def value_equal : Value → Value → Bool
  | .Number a, .Number b => decide (a = b)
  | .Boolean a, .Boolean b => decide (a = b)
  | .String a, .String b => decide (a = b)
  | .Null, .Null => true
  | _, _ => false

/-- `is_falsey` from `src/vm/vm_impl.rs`: Boolean(false) and Null are
falsey, everything else is truthy. -/
def is_falsey : Value → Bool
  | .Boolean b => !b
  | .Null => true
  | _ => false

/-- The global-variable mapping: `HashMap<String, Value>` modelled as an
association list with at most one entry per key. -/
abbrev Globals := List (String × Value)

/-- `HashMap::get`: the value stored under a key, if any. -/
def gget : Globals → String → Option Value
  | [], _ => none
  | (k, v) :: rest, n => if k = n then some v else gget rest n

/-- `HashMap::insert`: store a value under a key, overwriting any previous
entry for that key. -/
def ginsert : Globals → String → Value → Globals
  | [], n, v => [(n, v)]
  | (k, w) :: rest, n, v =>
      if k = n then (n, v) :: rest else (k, w) :: ginsert rest n v

/-- `Vec::get(i)` on the operand stack: the stack is a head-is-top list, so
bottom-based index `i` is list position `length - 1 - i`; absent when out of
range. -/
def vecGet (s : List Value) (i : Nat) : Option Value :=
  if h : i < s.length then some (s.get ⟨s.length - 1 - i, by omega⟩) else none

/-- `vec[i] = v` on the operand stack: write at bottom-based index `i`;
absent (a Rust panic) when out of range. -/
def vecSet (s : List Value) (i : Nat) (v : Value) : Option (List Value) :=
  if i < s.length then some (s.set (s.length - 1 - i) v) else none

/-- `InterpretResult` from `src/vm/vm_impl.rs`. -/
inductive InterpretResult where
  | Ok
  | CompileError
  | RuntimeError
  deriving DecidableEq, Repr

/-- The machine state of `VirtualMachine`: program counter, operand stack
(head is the top), global mapping, and the values printed so far (the
`println!` in `Return`). -/
structure VMState where
  pc : Nat
  stack : List Value
  globals : Globals
  output : List Value
  deriving DecidableEq, Repr

/-- The outcome of dispatching one instruction: continue in a new state,
halt with an `InterpretResult` (carrying the state at the halt), or a Rust
panic (out-of-bounds slice indexing or `usize` underflow). -/
inductive StepOut where
  | next (s : VMState)
  | halt (r : InterpretResult) (s : VMState)
  | panic
  deriving DecidableEq, Repr

/-- The dispatch body of `VirtualMachine::interpret` from
`src/vm/vm_impl.rs` (lines 58–206): execute one already-fetched instruction
against a state whose `pc` has already been advanced past it.  Each branch
mirrors the corresponding `match` arm of the source, including the exact
pop order (the first pop is the list head), the stack left behind on a
runtime error, and the panics of the unchecked accesses in `SetLocal`,
`JumpIfFalse` and `Loop`. -/
def exec (instr : OpCode) (c : Chunk) (s : VMState) : StepOut :=
  match instr with
  | .Constant index =>
      match c.get_constant index with
      | none => .halt .RuntimeError s
      | some v => .next { s with stack := v :: s.stack }
  | .True => .next { s with stack := .Boolean true :: s.stack }
  | .False => .next { s with stack := .Boolean false :: s.stack }
  | .Null => .next { s with stack := .Null :: s.stack }
  | .Not =>
      match s.stack with
      | [] => .halt .RuntimeError s
      | v :: rest => .next { s with stack := .Boolean (is_falsey v) :: rest }
  | .Negate =>
      match s.stack with
      | [] => .halt .RuntimeError s
      | .Number n :: rest => .next { s with stack := .Number (-n) :: rest }
      | _ :: _ => .halt .RuntimeError s
  | .Equal =>
      match s.stack with
      | a :: b :: rest =>
          .next { s with stack := .Boolean (value_equal a b) :: rest }
      | _ => .halt .RuntimeError { s with stack := s.stack.drop 2 }
  | .NotEqual =>
      match s.stack with
      | a :: b :: rest =>
          .next { s with stack := .Boolean (!value_equal a b) :: rest }
      | _ => .halt .RuntimeError { s with stack := s.stack.drop 2 }
  | .Greater =>
      match s.stack with
      | .Number fv :: .Number sv :: rest =>
          .next { s with stack := .Boolean (decide (sv > fv)) :: rest }
      | _ => .halt .RuntimeError { s with stack := s.stack.drop 2 }
  | .GreaterEqual =>
      match s.stack with
      | .Number fv :: .Number sv :: rest =>
          .next { s with stack := .Boolean (decide (sv ≥ fv)) :: rest }
      | _ => .halt .RuntimeError { s with stack := s.stack.drop 2 }
  | .Less =>
      match s.stack with
      | .Number fv :: .Number sv :: rest =>
          .next { s with stack := .Boolean (decide (sv < fv)) :: rest }
      | _ => .halt .RuntimeError { s with stack := s.stack.drop 2 }
  | .LessEqual =>
      match s.stack with
      | .Number fv :: .Number sv :: rest =>
          .next { s with stack := .Boolean (decide (sv ≤ fv)) :: rest }
      | _ => .halt .RuntimeError { s with stack := s.stack.drop 2 }
  | .Add =>
      match s.stack with
      | .Number fv :: .Number sv :: rest =>
          .next { s with stack := .Number (fv + sv) :: rest }
      | .String fv :: .String sv :: rest =>
          .next { s with stack := .String (sv ++ fv) :: rest }
      | _ => .halt .RuntimeError { s with stack := s.stack.drop 2 }
  | .Subtract =>
      match s.stack with
      | .Number fv :: .Number sv :: rest =>
          .next { s with stack := .Number (sv - fv) :: rest }
      | _ => .halt .RuntimeError { s with stack := s.stack.drop 2 }
  | .Multiply =>
      match s.stack with
      | .Number fv :: .Number sv :: rest =>
          .next { s with stack := .Number (fv * sv) :: rest }
      | _ => .halt .RuntimeError { s with stack := s.stack.drop 2 }
  | .Divide =>
      match s.stack with
      | .Number fv :: .Number sv :: rest =>
          if fv = 0 then .halt .RuntimeError { s with stack := rest }
          else .next { s with stack := .Number (sv / fv) :: rest }
      | _ => .halt .RuntimeError { s with stack := s.stack.drop 2 }
  | .Pop => .next { s with stack := s.stack.tail }
  | .DefineGlobal index =>
      match c.get_constant index, s.stack with
      | some (.String name), v :: _ =>
          .next { s with globals := ginsert s.globals name v }
      | _, _ => .halt .RuntimeError s
  | .GetGlobal index =>
      match c.get_constant index with
      | some (.String name) =>
          match gget s.globals name with
          | some v => .next { s with stack := v :: s.stack }
          | none => .halt .RuntimeError s
      | _ => .halt .RuntimeError s
  | .SetGlobal index =>
      match c.get_constant index with
      | some (.String name) =>
          match s.stack with
          | v :: rest =>
              .next { s with stack := rest, globals := ginsert s.globals name v }
          | [] => .halt .RuntimeError s
      | _ => .halt .RuntimeError s
  | .GetLocal index =>
      if index = 0 then .panic
      else
        match vecGet s.stack (index - 1) with
        | none => .halt .RuntimeError s
        | some v => .next { s with stack := v :: s.stack }
  | .SetLocal index =>
      match s.stack with
      | [] => .panic
      | top :: _ =>
          match vecSet s.stack index top with
          | none => .panic
          | some st => .next { s with stack := st }
  | .JumpIfFalse offset =>
      match s.stack with
      | [] => .panic
      | top :: _ =>
          if is_falsey top then .next { s with pc := s.pc + offset } else .next s
  | .Jump offset => .next { s with pc := s.pc + offset }
  | .Loop offset =>
      if offset ≤ s.pc then .next { s with pc := s.pc - offset } else .panic
  | .Return =>
      match s.stack with
      | [] => .halt .Ok { s with output := s.output ++ [.Null] }
      | v :: rest => .halt .Ok { s with stack := rest, output := s.output ++ [v] }

/-- One iteration of the `loop` in `VirtualMachine::interpret`: fetch the
instruction at the program counter (absent means normal completion `Ok`),
advance the counter, then dispatch. -/
def step (c : Chunk) (s : VMState) : StepOut :=
  match c.get s.pc with
  | none => .halt .Ok s
  | some instr => exec instr c { s with pc := s.pc + 1 }

/-- The overall outcome of running `interpret`: a halt with a result and
the final state, or a Rust panic. -/
inductive RunOut where
  | halt (r : InterpretResult) (s : VMState)
  | panic
  deriving DecidableEq, Repr

/-- `VirtualMachine::interpret` as a fuelled iteration of `step`; `none`
means the fuel ran out before the machine halted. -/
def run (fuel : Nat) (c : Chunk) (s : VMState) : Option RunOut :=
  match fuel with
  | 0 => none
  | fuel + 1 =>
      match step c s with
      | .next s' => run fuel c s'
      | .halt r s' => some (.halt r s')
      | .panic => some .panic

/-! ## Helper lemmas -/

/-- Looking up the key just inserted yields the inserted value. -/
theorem gget_ginsert_self (g : Globals) (n : String) (v : Value) :
    gget (ginsert g n v) n = some v := by
  induction g with
  | nil => simp [ginsert, gget]
  | cons kv rest ih =>
      obtain ⟨k, w⟩ := kv
      by_cases h : k = n <;> simp [ginsert, gget, h, ih]

/-- Inserting one key leaves every other key's binding unchanged. -/
theorem gget_ginsert_ne (g : Globals) (n m : String) (v : Value) (h : m ≠ n) :
    gget (ginsert g n v) m = gget g m := by
  have hnm : n ≠ m := Ne.symm h
  induction g with
  | nil => simp [ginsert, gget, hnm]
  | cons kv rest ih =>
      obtain ⟨k, w⟩ := kv
      by_cases hk : k = n
      · subst hk
        simp [ginsert, gget, hnm]
      · simp only [ginsert, if_neg hk, gget]
        by_cases hm : k = m <;> simp [hm, ih]

/-- A dispatch that halts with `Ok` can only come from the `Return`
instruction. -/
theorem exec_eq_halt_ok_imp (i : OpCode) (c : Chunk) (s s' : VMState)
    (h : exec i c s = .halt .Ok s') : i = .Return := by
  cases i <;> simp only [exec] at h <;> (try rfl) <;> (repeat' split at h) <;> simp_all

/-- If the fuelled run halts with some result, one of its iterations
produced that halt. -/
theorem run_halt_imp_step (fuel : Nat) (c : Chunk) (s s' : VMState)
    (r : InterpretResult) (h : run fuel c s = some (.halt r s')) :
    ∃ t, step c t = .halt r s' := by
  induction fuel generalizing s with
  | zero => simp [run] at h
  | succ fuel ih =>
      simp only [run] at h
      cases hs : step c s with
      | next t => exact ih t (by simpa [hs] using h)
      | halt r0 t =>
          rw [hs] at h
          simp only [Option.some.injEq, RunOut.halt.injEq] at h
          exact ⟨s, by rw [hs, h.1, h.2]⟩
      | panic => simp [hs] at h

/-! ## Claim theorems -/

/-- C1: every binary instruction treats the second pop as the left operand
and the first pop as the right operand.  With the right operand `b` pushed
last (the list head) and the left operand `a` below it, Subtract pushes
`a - b`, Divide pushes `a / b` (when `b ≠ 0`), the four relational
comparisons compare `a` against `b` in that order, and Add on two Strings
pushes the concatenation `x ++ y` of the deeper string `x` followed by the
top string `y`. -/
theorem binary_ops_use_second_pop_as_left_operand (c : Chunk) (s : VMState)
    (a b : Rat) (x y : String) (rest : List Value) :
    exec .Subtract c { s with stack := .Number b :: .Number a :: rest }
      = .next { s with stack := .Number (a - b) :: rest }
  ∧ exec .Divide c { s with stack := .Number b :: .Number a :: rest }
      = (if b = 0 then .halt .RuntimeError { s with stack := rest }
         else .next { s with stack := .Number (a / b) :: rest })
  ∧ exec .Greater c { s with stack := .Number b :: .Number a :: rest }
      = .next { s with stack := .Boolean (decide (a > b)) :: rest }
  ∧ exec .GreaterEqual c { s with stack := .Number b :: .Number a :: rest }
      = .next { s with stack := .Boolean (decide (a ≥ b)) :: rest }
  ∧ exec .Less c { s with stack := .Number b :: .Number a :: rest }
      = .next { s with stack := .Boolean (decide (a < b)) :: rest }
  ∧ exec .LessEqual c { s with stack := .Number b :: .Number a :: rest }
      = .next { s with stack := .Boolean (decide (a ≤ b)) :: rest }
  ∧ exec .Add c { s with stack := .String y :: .String x :: rest }
      = .next { s with stack := .String (x ++ y) :: rest } := by
  refine ⟨rfl, ?_, rfl, rfl, rfl, rfl, rfl⟩
  by_cases hb : b = 0 <;> simp [exec, hb]

/-- C2: the claim says `GetLocal(slot)` and `SetLocal(slot)` address the
same storage under one 1-based numbering.  The code does not: on the stack
`[Number 7, Number 9]` (bottom to top), `GetLocal(1)` reads bottom position
0 (slot − 1) and pushes `Number 7`, but `SetLocal(1)` writes bottom
position 1 — the top itself — leaving the stack `[7, 9]` unchanged, where
writing position 0 would have produced `[9, 9]`. -/
theorem setLocal_slot_numbering_mismatch :
    exec (.GetLocal 1) ⟨[], []⟩ ⟨0, [.Number 9, .Number 7], [], []⟩
      = .next ⟨0, [.Number 7, .Number 9, .Number 7], [], []⟩
  ∧ exec (.SetLocal 1) ⟨[], []⟩ ⟨0, [.Number 9, .Number 7], [], []⟩
      = .next ⟨0, [.Number 9, .Number 7], [], []⟩
  ∧ exec (.SetLocal 1) ⟨[], []⟩ ⟨0, [.Number 9, .Number 7], [], []⟩
      ≠ .next ⟨0, [.Number 9, .Number 9], [], []⟩ := by
  refine ⟨by simp [exec, vecGet], by simp [exec, vecSet], by simp [exec, vecSet]⟩

/-- C3 counterexample: three accesses the claim says end in `RuntimeError`
instead hit unchecked indexing or `usize` underflow and panic: `SetLocal(5)`
on a one-element stack, `JumpIfFalse` on an empty stack, and `Loop(5)` with
the program counter at 0. -/
theorem out_of_range_panics_counterexample :
    exec (.SetLocal 5) ⟨[], []⟩ ⟨0, [.Number 1], [], []⟩ = .panic
  ∧ exec (.JumpIfFalse 1) ⟨[], []⟩ ⟨0, [], [], []⟩ = .panic
  ∧ exec (.Loop 5) ⟨[], []⟩ ⟨0, [], [], []⟩ = .panic := by
  refine ⟨by simp [exec, vecSet], rfl, by simp [exec]⟩

/-- C3 (amended): out-of-range constant-pool indexes and out-of-range
`GetLocal` slots (slot ≥ 1) halt with `RuntimeError`, while an out-of-range
`SetLocal` slot, `JumpIfFalse` on an empty stack, and `Loop` with an offset
larger than the already-advanced program counter panic instead. -/
theorem out_of_range_access_behaviour (c : Chunk) (i : Nat) (s : VMState) :
    (c.get_constant i = none → exec (.Constant i) c s = .halt .RuntimeError s)
  ∧ (1 ≤ i → vecGet s.stack (i - 1) = none →
       exec (.GetLocal i) c s = .halt .RuntimeError s)
  ∧ (s.stack.length ≤ i → s.stack ≠ [] → exec (.SetLocal i) c s = .panic)
  ∧ (s.stack = [] → exec (.SetLocal i) c s = .panic)
  ∧ (s.stack = [] → exec (.JumpIfFalse i) c s = .panic)
  ∧ (s.pc < i → exec (.Loop i) c s = .panic) := by
  refine ⟨fun h => by simp [exec, h], fun hi h => ?_, fun hlen hne => ?_,
    fun h => by simp [exec, h], fun h => by simp [exec, h], fun h => ?_⟩
  · have : i ≠ 0 := by omega
    simp [exec, this, h]
  · rcases hx : s.stack with _ | ⟨top, rest⟩
    · exact absurd hx hne
    · have hlt : ¬ i < rest.length + 1 := by
        rw [hx] at hlen
        simp at hlen
        omega
      simp [exec, hx, vecSet, hlt]
  · simp [exec]
    omega

/-- C3 witness: the amended theorem applied at concrete inputs. -/
theorem out_of_range_access_behaviour_witness :
    exec (.Constant 3) ⟨[], []⟩ ⟨0, [], [], []⟩
      = .halt .RuntimeError ⟨0, [], [], []⟩
  ∧ exec (.GetLocal 2) ⟨[], []⟩ ⟨0, [.Number 1], [], []⟩
      = .halt .RuntimeError ⟨0, [.Number 1], [], []⟩
  ∧ exec (.SetLocal 2) ⟨[], []⟩ ⟨0, [.Number 1], [], []⟩ = .panic
  ∧ exec (.SetLocal 2) ⟨[], []⟩ ⟨0, [], [], []⟩ = .panic
  ∧ exec (.JumpIfFalse 2) ⟨[], []⟩ ⟨0, [], [], []⟩ = .panic
  ∧ exec (.Loop 2) ⟨[], []⟩ ⟨0, [], [], []⟩ = .panic :=
  ⟨(out_of_range_access_behaviour ⟨[], []⟩ 3 ⟨0, [], [], []⟩).1 rfl,
   (out_of_range_access_behaviour ⟨[], []⟩ 2 ⟨0, [.Number 1], [], []⟩).2.1
     (by decide) (by simp [vecGet]),
   (out_of_range_access_behaviour ⟨[], []⟩ 2 ⟨0, [.Number 1], [], []⟩).2.2.1
     (by decide) (by decide),
   (out_of_range_access_behaviour ⟨[], []⟩ 2 ⟨0, [], [], []⟩).2.2.2.1 rfl,
   (out_of_range_access_behaviour ⟨[], []⟩ 2 ⟨0, [], [], []⟩).2.2.2.2.1 rfl,
   (out_of_range_access_behaviour ⟨[], []⟩ 2 ⟨0, [], [], []⟩).2.2.2.2.2
     (by decide)⟩

/-- C4: `Divide` with a zero right operand (the first pop) halts with
`RuntimeError` after popping both operands and pushes no result, for every
dividend and every surrounding state. -/
theorem divide_by_zero_is_runtime_error (c : Chunk) (s : VMState) (a : Rat)
    (rest : List Value) :
    exec .Divide c { s with stack := .Number 0 :: .Number a :: rest }
      = .halt .RuntimeError { s with stack := rest } := by
  simp [exec]

/-- C5: `Not` replaces the top value `v` by `Boolean (is_falsey v)` without
changing the rest of the stack (so the height is unchanged), and
`is_falsey v` holds exactly when `v` is `Boolean false` or `Null` — in
particular `Number 0` and the empty `String` are truthy. -/
theorem not_negates_falsey_top (c : Chunk) (s : VMState) (v : Value)
    (rest : List Value) :
    exec .Not c { s with stack := v :: rest }
      = .next { s with stack := .Boolean (is_falsey v) :: rest }
  ∧ (is_falsey v = true ↔ v = .Boolean false ∨ v = .Null)
  ∧ is_falsey (.Number 0) = false
  ∧ is_falsey (.String "") = false := by
  refine ⟨rfl, ?_, rfl, rfl⟩
  cases v <;> simp [is_falsey]

/-- Writing through `vecSet` never changes the stack height. -/
theorem vecSet_length (s : List Value) (i : Nat) (v : Value) (st : List Value)
    (h : vecSet s i v = some st) : st.length = s.length := by
  simp only [vecSet] at h
  split at h
  · injection h with h2
    rw [← h2, List.length_set]
  · exact Option.noConfusion h

/-- A `step` that halts with `Ok` fetched nothing (end of code) or fetched
`Return`. -/
theorem step_eq_halt_ok_cases (c : Chunk) (s s' : VMState)
    (h : step c s = .halt .Ok s') :
    c.get s.pc = none ∨ c.get s.pc = some .Return := by
  rcases hf : c.get s.pc with _ | i
  · exact Or.inl rfl
  · right
    simp only [step, hf] at h
    rw [exec_eq_halt_ok_imp i c { s with pc := s.pc + 1 } s' h]

/-- C6: with the constant at `i` naming the string `n`, `GetGlobal i` on a
state whose global mapping has no entry for `n` halts with `RuntimeError`
(and pushes the stored value when one exists), while `SetGlobal i` always
succeeds: it pops the assigned value and inserts `n` into the mapping,
creating the binding when absent and overwriting it when present, leaving
every other name's binding untouched. -/
theorem global_get_and_set_resolution (c : Chunk) (i : Nat) (n : String)
    (pc : Nat) (st out : List Value) (g : Globals) (v : Value)
    (hc : c.get_constant i = some (.String n)) :
    (gget g n = none →
       exec (.GetGlobal i) c ⟨pc, st, g, out⟩
         = .halt .RuntimeError ⟨pc, st, g, out⟩)
  ∧ (∀ w, gget g n = some w →
       exec (.GetGlobal i) c ⟨pc, st, g, out⟩ = .next ⟨pc, w :: st, g, out⟩)
  ∧ exec (.SetGlobal i) c ⟨pc, v :: st, g, out⟩
      = .next ⟨pc, st, ginsert g n v, out⟩
  ∧ gget (ginsert g n v) n = some v
  ∧ (∀ m, m ≠ n → gget (ginsert g n v) m = gget g m) := by
  exact ⟨fun h => by simp [exec, hc, h], fun w h => by simp [exec, hc, h],
    by simp [exec, hc], gget_ginsert_self g n v,
    fun m hm => gget_ginsert_ne g n m v hm⟩

/-- C6 witness: `GetGlobal` of the unknown name "a" fails; `SetGlobal`
of "a" over the binding `a ↦ 1` pops `3` and overwrites the binding. -/
theorem global_get_and_set_resolution_witness :
    exec (.GetGlobal 0) ⟨[], [.String "a"]⟩ ⟨0, [], [], []⟩
      = .halt .RuntimeError ⟨0, [], [], []⟩
  ∧ exec (.SetGlobal 0) ⟨[], [.String "a"]⟩
        ⟨0, [.Number 3], [("a", .Number 1)], []⟩
      = .next ⟨0, [], [("a", .Number 3)], []⟩ := by
  constructor
  · exact (global_get_and_set_resolution ⟨[], [.String "a"]⟩ 0 "a" 0 [] [] []
      (.Number 3) rfl).1 rfl
  · have h := (global_get_and_set_resolution ⟨[], [.String "a"]⟩ 0 "a" 0 [] []
      [("a", .Number 1)] (.Number 3) rfl).2.2.1
    simpa [ginsert] using h

/-- C7: with the constant at `i` a String name and a non-empty stack,
`DefineGlobal i` inserts (or overwrites) that name with the current stack
top, leaves the operand stack entirely unchanged and continues; when the
constant is absent or not a String, or the stack is empty, it halts with
`RuntimeError`. -/
theorem defineGlobal_reads_top_without_pop (c : Chunk) (i : Nat) (n : String)
    (pc : Nat) (v : Value) (st stk : List Value) (g : Globals)
    (out : List Value) :
    (c.get_constant i = some (.String n) →
       exec (.DefineGlobal i) c ⟨pc, v :: st, g, out⟩
         = .next ⟨pc, v :: st, ginsert g n v, out⟩)
  ∧ ((∀ m, c.get_constant i ≠ some (.String m)) →
       exec (.DefineGlobal i) c ⟨pc, stk, g, out⟩
         = .halt .RuntimeError ⟨pc, stk, g, out⟩)
  ∧ exec (.DefineGlobal i) c ⟨pc, [], g, out⟩
      = .halt .RuntimeError ⟨pc, [], g, out⟩ := by
  refine ⟨fun h => by simp [exec, h], fun h => ?_, ?_⟩
  · rcases hc : c.get_constant i with _ | val
    · rcases stk with _ | ⟨v0, stk⟩ <;> simp [exec, hc]
    · rcases val with q | q | q | _
      · rcases stk with _ | ⟨v0, stk⟩ <;> simp [exec, hc]
      · rcases stk with _ | ⟨v0, stk⟩ <;> simp [exec, hc]
      · exact absurd hc (h q)
      · rcases stk with _ | ⟨v0, stk⟩ <;> simp [exec, hc]
  · rcases hc : c.get_constant i with _ | val
    · simp [exec, hc]
    · rcases val with q | q | q | _ <;> simp [exec, hc]

/-- C7 witness: defining "x" with `5` on top binds `x ↦ 5` and keeps `5`
on the stack; a Number constant in place of the name fails. -/
theorem defineGlobal_reads_top_without_pop_witness :
    exec (.DefineGlobal 0) ⟨[], [.String "x"]⟩ ⟨0, [.Number 5], [], []⟩
      = .next ⟨0, [.Number 5], [("x", .Number 5)], []⟩
  ∧ exec (.DefineGlobal 0) ⟨[], [.Number 7]⟩ ⟨0, [.Number 5], [], []⟩
      = .halt .RuntimeError ⟨0, [.Number 5], [], []⟩ := by
  constructor
  · have h := (defineGlobal_reads_top_without_pop ⟨[], [.String "x"]⟩ 0 "x" 0
      (.Number 5) [] [] [] []).1 rfl
    simpa [ginsert] using h
  · exact (defineGlobal_reads_top_without_pop ⟨[], [.Number 7]⟩ 0 "x" 0
      (.Number 5) [] [.Number 5] [] []).2.1
      (fun m => by simp [Chunk.get_constant])

/-- C8: `value_equal` is reflexive, symmetric, and false across different
variants; `Equal` pops two values of any variants and pushes the Boolean of
their structural equality, `NotEqual` pushes its negation — neither ever
produces a type error. -/
theorem equal_structural_semantics (c : Chunk) (s : VMState) (a b : Value)
    (rest : List Value) :
    value_equal a a = true
  ∧ value_equal a b = value_equal b a
  ∧ (a.variant ≠ b.variant → value_equal a b = false)
  ∧ exec .Equal c { s with stack := a :: b :: rest }
      = .next { s with stack := .Boolean (value_equal a b) :: rest }
  ∧ exec .NotEqual c { s with stack := a :: b :: rest }
      = .next { s with stack := .Boolean (!value_equal a b) :: rest } := by
  refine ⟨?_, ?_, ?_, rfl, rfl⟩
  · cases a <;> simp [value_equal]
  · cases a <;> cases b <;> simp [value_equal, eq_comm]
  · intro hv
    cases a <;> cases b <;> first | rfl | exact absurd rfl hv

/-- C8 witness: the cross-variant clause at `Number 1` versus
`Boolean true`. -/
theorem equal_structural_semantics_witness :
    value_equal (.Number 1) (.Boolean true) = false :=
  (equal_structural_semantics ⟨[], []⟩ ⟨0, [], [], []⟩ (.Number 1)
    (.Boolean true) []).2.2.1 (by decide)

/-- C9: fetching `Return` pops the stack top (or uses Null when the stack
is empty), appends it to the printed output, and halts with `Ok` whatever
instructions remain; fetching past the end halts with `Ok`; and these are
the only two ways a step — hence the fuelled run — halts with `Ok`. -/
theorem return_is_sole_ok_exit (c : Chunk) (s s' : VMState) (v : Value)
    (rest : List Value) (fuel : Nat) (s0 : VMState) :
    (c.get s.pc = some .Return → s.stack = v :: rest →
       step c s = .halt .Ok
         { s with pc := s.pc + 1, stack := rest, output := s.output ++ [v] })
  ∧ (c.get s.pc = some .Return → s.stack = [] →
       step c s = .halt .Ok
         { s with pc := s.pc + 1, output := s.output ++ [.Null] })
  ∧ (c.get s.pc = none → step c s = .halt .Ok s)
  ∧ (step c s = .halt .Ok s' →
       c.get s.pc = none ∨ c.get s.pc = some .Return)
  ∧ (run fuel c s0 = some (.halt .Ok s') →
       ∃ t : VMState, c.get t.pc = none ∨ c.get t.pc = some .Return) := by
  refine ⟨fun h hst => by simp [step, h, exec, hst], fun h hst => by
    simp [step, h, exec, hst], fun h => by simp [step, h],
    step_eq_halt_ok_cases c s s', fun h => ?_⟩
  obtain ⟨t, ht⟩ := run_halt_imp_step fuel c s0 s' .Ok h
  exact ⟨t, step_eq_halt_ok_cases c t s' ht⟩

/-- C9 witness: a `Return` with an instruction still after it halts with
`Ok`, printing the popped `5`; `Return` on an empty stack prints Null; an
empty chunk halts with `Ok`; and the halt-classification applied to the
concrete `Return` step. -/
theorem return_is_sole_ok_exit_witness :
    step ⟨[.Return, .Pop], []⟩ ⟨0, [.Number 5], [], []⟩
      = .halt .Ok ⟨1, [], [], [.Number 5]⟩
  ∧ step ⟨[.Return], []⟩ ⟨0, [], [], []⟩ = .halt .Ok ⟨1, [], [], [.Null]⟩
  ∧ step ⟨[], []⟩ ⟨0, [], [], []⟩ = .halt .Ok ⟨0, [], [], []⟩
  ∧ (Chunk.get ⟨[.Return, .Pop], []⟩ 0 = none
      ∨ Chunk.get ⟨[.Return, .Pop], []⟩ 0 = some .Return) :=
  ⟨(return_is_sole_ok_exit ⟨[.Return, .Pop], []⟩ ⟨0, [.Number 5], [], []⟩
      ⟨1, [], [], [.Number 5]⟩ (.Number 5) [] 1 ⟨0, [], [], []⟩).1 rfl rfl,
   (return_is_sole_ok_exit ⟨[.Return], []⟩ ⟨0, [], [], []⟩
      ⟨1, [], [], [.Null]⟩ .Null [] 1 ⟨0, [], [], []⟩).2.1 rfl rfl,
   (return_is_sole_ok_exit ⟨[], []⟩ ⟨0, [], [], []⟩
      ⟨0, [], [], []⟩ .Null [] 1 ⟨0, [], [], []⟩).2.2.1 rfl,
   (return_is_sole_ok_exit ⟨[.Return, .Pop], []⟩ ⟨0, [.Number 5], [], []⟩
      ⟨1, [], [], [.Number 5]⟩ (.Number 5) [] 1 ⟨0, [], [], []⟩).2.2.2.1 rfl⟩

/-- C10: a succeeding `SetGlobal` pops the assigned value, so the stack
height drops by one, whereas a succeeding `SetLocal` copies the top into
the target slot without popping, so the stack height is unchanged. -/
theorem assignment_stack_effect_difference (c : Chunk) (i : Nat) (n : String)
    (pc : Nat) (v : Value) (st out : List Value) (g : Globals)
    (s s' : VMState) :
    (c.get_constant i = some (.String n) →
       exec (.SetGlobal i) c ⟨pc, v :: st, g, out⟩
         = .next ⟨pc, st, ginsert g n v, out⟩)
  ∧ (exec (.SetLocal i) c s = .next s' →
       s'.stack.length = s.stack.length) := by
  refine ⟨fun h => by simp [exec, h], fun h => ?_⟩
  rcases hx : s.stack with _ | ⟨top, rest⟩
  · simp [exec, hx] at h
  · simp only [exec, hx] at h
    split at h
    · exact StepOut.noConfusion h
    · rename_i st2 hv
      injection h with h2
      rw [← h2]
      simp [vecSet_length _ _ _ _ hv, hx]

/-- C10 witness: `SetGlobal` of "a" pops the `2`, shrinking the stack from
one value to none; `SetLocal 1` on a two-value stack leaves its height at
two. -/
theorem assignment_stack_effect_difference_witness :
    exec (.SetGlobal 0) ⟨[], [.String "a"]⟩ ⟨0, [.Number 2], [], []⟩
      = .next ⟨0, [], [("a", .Number 2)], []⟩
  ∧ (VMState.mk 0 [.Number 9, .Number 7] [] []).stack.length
      = (VMState.mk 0 [.Number 9, .Number 7] [] []).stack.length := by
  constructor
  · have h := (assignment_stack_effect_difference ⟨[], [.String "a"]⟩ 0 "a" 0
      (.Number 2) [] [] [] ⟨0, [], [], []⟩ ⟨0, [], [], []⟩).1 rfl
    simpa [ginsert] using h
  · exact (assignment_stack_effect_difference ⟨[], []⟩ 1 "a" 0 (.Number 2)
      [] [] [] ⟨0, [.Number 9, .Number 7], [], []⟩
      ⟨0, [.Number 9, .Number 7], [], []⟩).2 (by simp [exec, vecSet])
